import Mathlib

/-!
Shallow embedding of the scheduling kernel of
`src/Project dyanmic/final_project.py` (a dynamic load-balancing
multiprocessor simulator), together with theorems settling the frozen
claims about it.

Modelling conventions:
* Wall-clock instants and durations (`time.time()` floats, `work_units`)
  are rationals.
* A Python `deque` is a `List` with the *front* at the head; `append`
  pushes at the back (tail), `popleft` takes the head, `pop` takes the
  last element.
* `None`-able float fields become `Option ℚ`.  Python truthiness of a
  float (`if task.completed_at and task.created_at:`) tests `≠ 0`, with
  `None` falsy.
* Methods that mutate an object are functions returning the updated
  value; methods that both return data and mutate return a pair.
-/

namespace Sim

/-- `Task`: identity, work demand, creation and (optional) completion
timestamps (`final_project.py`, class `Task`).  (Namespaced `Sim.Task`
because core Lean already has a `Task`.) -/
structure Task where
  tid : Nat
  work_units : ℚ
  created_at : ℚ
  completed_at : Option ℚ
deriving DecidableEq, Repr, Inhabited

/-- `Node`: a simulated worker.  The `scheduler` back-reference of the
Python class is dropped (it is only used to report completions); all
other fields are kept (`final_project.py`, class `Node`). -/
structure Node where
  nid : Nat
  speed : ℚ
  queue : List Task
  busy : Bool
  active : Bool
  completed : Nat
deriving DecidableEq, Repr, Inhabited

namespace Node

/-- `Node.push`: append to the back of the local queue when active,
drop silently when inactive. -/
def push (n : Node) (task : Task) : Node :=
  if n.active then { n with queue := n.queue ++ [task] } else n

/-- `Node.queue_len`. -/
def queue_len (n : Node) : Nat :=
  n.queue.length

/-- The `for _ in range(k): stolen.append(self.queue.pop())` loop of
`Node.steal_tasks`: pop `k` tasks from the back, first popped first in
the result.  The caller always caps `k` strictly below the queue length,
so the `none` branch is unreachable there. -/
def stealLoop : Nat → List Task → List Task × List Task
  | 0, q => ([], q)
  | k + 1, q =>
    match q.getLast? with
    | none => ([], q)
    | some t =>
      let r := stealLoop k q.dropLast
      (t :: r.1, r.2)

/-- `Node.steal_tasks(amount)`: if inactive return `[]` (queue
untouched); otherwise pop `min(amount, max(0, len(queue) - 1))` tasks
from the back, returning them in the order taken. -/
def steal_tasks (n : Node) (amount : Nat) : List Task × Node :=
  if n.active then
    let k := min amount (n.queue.length - 1)
    let r := stealLoop k n.queue
    (r.1, { n with queue := r.2 })
  else ([], n)

/-- A concrete node used in counterexamples and witnesses: active, with
an empty queue. -/
def exEmptyNode : Node :=
  { nid := 0, speed := 1, queue := [], busy := false, active := true, completed := 0 }

/-- A concrete three-task queue for witnesses. -/
def exTask (i : Nat) : Task :=
  { tid := i, work_units := 1/2, created_at := 10 + i, completed_at := none }

/-- A concrete node holding three tasks. -/
def exNode3 : Node :=
  { nid := 1, speed := 1, queue := [exTask 0, exTask 1, exTask 2],
    busy := false, active := true, completed := 0 }

end Node

/-- Python `min(xs, key=k)` on a nonempty list `best :: rest`: scan left
to right, replacing the current best only on a strictly smaller key, so
the first minimum wins. -/
def pyMinBy (key : α → Nat) : α → List α → α
  | best, [] => best
  | best, x :: xs => pyMinBy key (if key x < key best then x else best) xs

/-- Python `max(xs, key=k)` on a nonempty list `best :: rest`: scan left
to right, replacing the current best only on a strictly larger key, so
the first maximum wins. -/
def pyMaxBy (key : α → Nat) : α → List α → α
  | best, [] => best
  | best, x :: xs => pyMaxBy key (if key best < key x then x else best) xs

/-- Index bookkeeping for Python's mutable node list: pair each node
with its position, starting at `k`. -/
def enumFrom : Nat → List Node → List (Nat × Node)
  | _, [] => []
  | k, n :: ns => (k, n) :: enumFrom (k + 1) ns

/-- In-place mutation of the node at index `j` (`self.nodes[j]....`). -/
def updateAt (j : Nat) (f : Node → Node) (ns : List Node) : List Node :=
  match ns, j with
  | [], _ => []
  | n :: ns, 0 => f n :: ns
  | n :: ns, j + 1 => n :: updateAt j f ns

/-- `Scheduler` state: policy string, node fleet, ingest queue,
migration counter, latency window (`final_project.py`, class
`Scheduler`).  The policy is `Option String` because the command handler
executes `self.policy = data.get("val")`, which can store any string or
`None`. -/
structure Scheduler where
  policy : Option String
  nodes : List Node
  task_queue : List Task
  migrations : Nat
  latencies : List ℚ
deriving DecidableEq, Repr, Inhabited

namespace Scheduler

/-- `Scheduler.__init__`: `num_nodes` fresh active nodes, node 0 is 20%
faster, empty ingest queue and latency window. -/
def init (num_nodes : Nat) (policy : String) : Scheduler :=
  { policy := some policy,
    nodes := (List.range num_nodes).map (fun i =>
      { nid := i, speed := if i = 0 then 12/10 else 1, queue := [],
        busy := false, active := true, completed := 0 }),
    task_queue := [],
    migrations := 0,
    latencies := [] }

/-- The `[n for n in self.nodes if n.active]` list, paired with each
node's position in `self.nodes` (Python keeps mutable references; the
embedding keeps indices). -/
def activePairs (s : Scheduler) : List (Nat × Node) :=
  (enumFrom 0 s.nodes).filter (fun p => p.2.active)

/-- The positions of the active nodes, in scan order. -/
def activeIdx (s : Scheduler) : List Nat :=
  (s.activePairs).map Prod.fst

/-- `Scheduler.report_completion(task)`: guarded by Python truthiness
`if task.completed_at and task.created_at:` (`None` and `0.0` are both
falsy); append the latency, then truncate `self.latencies` to
`self.latencies[-2000:]` when its length exceeds 5000. -/
def report_completion (s : Scheduler) (task : Task) : Scheduler :=
  match task.completed_at with
  | none => s
  | some c =>
    if c ≠ 0 ∧ task.created_at ≠ 0 then
      let ls := s.latencies ++ [c - task.created_at]
      if 5000 < ls.length then { s with latencies := ls.drop (ls.length - 2000) }
      else { s with latencies := ls }
    else s

/-- `Scheduler.kill_node(nid)`: in range, deactivate the node, drain its
queue and re-submit each drained task to the ingest queue (the Python
`asyncio.create_task(self.task_queue.put(t))` calls enqueue the drained
tasks); out of range, no-op.  `nid` is `Int` because the handler calls
`int(data.get("id"))`, which may be negative. -/
def kill_node (s : Scheduler) (nid : Int) : Scheduler :=
  if 0 ≤ nid ∧ nid < s.nodes.length then
    let i := nid.toNat
    let dead := (s.nodes.getD i default).queue
    { s with
      nodes := updateAt i (fun n => { n with active := false, queue := [] }) s.nodes,
      task_queue := s.task_queue ++ dead }
  else s

/-- `Scheduler.revive_node(nid)`: in range, reactivate; out of range,
no-op. -/
def revive_node (s : Scheduler) (nid : Int) : Scheduler :=
  if 0 ≤ nid ∧ nid < s.nodes.length then
    { s with nodes := updateAt nid.toNat (fun n => { n with active := true }) s.nodes }
  else s

end Scheduler

/-- The process-wide `SimState` flags (`recording`, `scenario_active`);
the CSV file handles are I/O and are not modelled. -/
structure SimState where
  recording : Bool
  scenario_active : Bool
deriving DecidableEq, Repr, Inhabited

/-- Python `round(x, d)` idealized over `ℚ`: nearest multiple of
`10 ^ (-d)`, ties to even. -/
def roundHalfEven (x : ℚ) : ℤ :=
  if x - ⌊x⌋ < 1/2 then ⌊x⌋
  else if 1/2 < x - ⌊x⌋ then ⌊x⌋ + 1
  else if Even ⌊x⌋ then ⌊x⌋ else ⌊x⌋ + 1

/-- `round(x, d)`. -/
def pyRound (d : Nat) (x : ℚ) : ℚ :=
  (roundHalfEven (x * 10 ^ d) : ℚ) / 10 ^ d

/-- The snapshot frame built by `Scheduler.snapshot`. -/
structure Snap where
  timestamp : ℚ
  policy : Option String
  queue_lengths : List Nat
  node_status : List Bool
  completed : List Nat
  migrations : Nat
  avg_latency : ℚ
  p95_latency : ℚ
  utilization : ℚ
  recording : Bool
  scenario_active : Bool
deriving DecidableEq, Repr

namespace Scheduler

/-- `Scheduler.snapshot()`.  `recent_lats = self.latencies[-50:] if
self.latencies else [0]`; the mean is `sum/len`; the p95 sample indexes
the ascending sort at `int(len * 0.95)` (for the lengths `1..50` the
float expression equals `len * 95 / 100` exactly; indexing is total here
because that index is always in range, `getD` supplies an unused
default).  Python's `sorted` is modelled by `List.insertionSort`:
rational lists have a unique sorted permutation.  `time.time()` is the
parameter `now`. -/
def snapshot (s : Scheduler) (sim : SimState) (now : ℚ) : Snap :=
  let recent_lats : List ℚ :=
    if s.latencies.isEmpty then [0] else s.latencies.drop (s.latencies.length - 50)
  let avg_lat : ℚ :=
    if recent_lats.isEmpty then 0 else recent_lats.sum / recent_lats.length
  let p95 : ℚ :=
    if recent_lats.isEmpty then 0
    else (recent_lats.insertionSort (· ≤ ·)).getD (recent_lats.length * 95 / 100) 0
  let active_count := (s.nodes.filter (fun n => n.active)).length
  let busy_count := (s.nodes.filter (fun n => n.active && n.busy)).length
  let utilization : ℚ :=
    if 0 < active_count then (busy_count : ℚ) / (active_count : ℚ) * 100 else 0
  { timestamp := now,
    policy := s.policy,
    queue_lengths := s.nodes.map Node.queue_len,
    node_status := s.nodes.map Node.active,
    completed := s.nodes.map Node.completed,
    migrations := s.migrations,
    avg_latency := pyRound 3 avg_lat,
    p95_latency := pyRound 3 p95,
    utilization := pyRound 1 utilization,
    recording := sim.recording,
    scenario_active := sim.scenario_active }

/-- `Scheduler.snapshot()` as a state-passing method: the returned frame
together with the scheduler state after the call.  The method body only
reads (`[-50:]` copies, comprehensions build fresh lists), so the
post-state is the pre-state. -/
def snapshotM (s : Scheduler) (sim : SimState) (now : ℚ) : Snap × Scheduler :=
  (s.snapshot sim now, s)

/-- The policy-dispatch step of `Scheduler.assign_loop`: given the
round-robin counter, choose the target index (and the new counter) among
the active nodes; `none` when no node is active.  `target =
active_nodes[0]` is the default; `round_robin` indexes cyclically and
bumps the persistent counter; `least_loaded` and `work_stealing` take
Python `min` by queue length (first minimum wins). -/
def dispatchTarget (s : Scheduler) (rr : Nat) : Option (Nat × Nat) :=
  match s.activePairs with
  | [] => none
  | p :: ps =>
    if s.policy = some "round_robin" then
      some (((p :: ps).getD (rr % (p :: ps).length) p).1, rr + 1)
    else if s.policy = some "least_loaded" ∨ s.policy = some "work_stealing" then
      some ((pyMinBy (fun q => q.2.queue_len) p ps).1, rr)
    else
      some (p.1, rr)

/-- One iteration of `Scheduler.assign_loop` on a task taken from the
ingest queue: with no active node the task is re-submitted to the ingest
queue (after the 1 s sleep); otherwise the task is pushed onto the
chosen target. -/
def assign_step (s : Scheduler) (rr : Nat) (task : Task) : Scheduler × Nat :=
  match s.dispatchTarget rr with
  | none => ({ s with task_queue := s.task_queue ++ [task] }, rr)
  | some (j, rr2) => ({ s with nodes := updateAt j (fun n => n.push task) s.nodes }, rr2)

/-- `assign_loop` iterated over a list of incoming tasks. -/
def assignMany (s : Scheduler) (rr : Nat) : List Task → Scheduler × Nat
  | [] => (s, rr)
  | t :: ts =>
    let r := s.assign_step rr t
    assignMany r.1 r.2 ts

end Scheduler

/-- The `for i, task in enumerate(stolen): idle_nodes[i % len(idle_nodes)].push(task)`
loop of `work_stealing_loop`, with `k` the enumeration counter. -/
def distributeAux (idle : List (Nat × Node)) : Nat → List Task → List Node → List Node
  | _, [], ns => ns
  | k, t :: ts, ns =>
    distributeAux idle (k + 1) ts
      (updateAt ((idle.getD (k % idle.length) (0, default)).1) (fun n => n.push t) ns)

/-- The sublist of `ts` a receiver at position `p` (of `m` round-robin
receivers) gets when the enumeration counter starts at `k`. -/
def receivedRR (m p : Nat) : Nat → List Task → List Task
  | _, [] => []
  | k, t :: ts => (if k % m = p then [t] else []) ++ receivedRR m p (k + 1) ts

namespace Scheduler

/-- One guarded iteration of `Scheduler.work_stealing_loop` (the body
after the 250 ms sleep): nothing happens unless the policy is
`work_stealing`; otherwise, when some active node is idle and the
first-maximum active node holds more than one task, steal
`max(1, busiest.queue_len() // 4)` from its back and deal the stolen
tasks round-robin to the idle active nodes, counting the migrations. -/
def work_stealing_step (s : Scheduler) : Scheduler :=
  if s.policy ≠ some "work_stealing" then s
  else
    match s.activePairs with
    | [] => s
    | p :: ps =>
      let idle := (p :: ps).filter (fun q => q.2.queue_len == 0)
      let busiest := pyMaxBy (fun q => q.2.queue_len) p ps
      if idle ≠ [] ∧ 1 < busiest.2.queue_len then
        let amount := max 1 (busiest.2.queue_len / 4)
        let r := busiest.2.steal_tasks amount
        if r.1 ≠ [] then
          { s with
            nodes := distributeAux idle 0 r.1 (updateAt busiest.1 (fun _ => r.2) s.nodes),
            migrations := s.migrations + r.1.length }
        else s
      else s

end Scheduler

/-- The round-robin placement count: among `M` dispatch iterations whose
round-robin counter starts at `rr` (and is bumped once per iteration),
how many select position `p` of the `A` active nodes, i.e. how many
counters `c` satisfy `c % A = p`. -/
def cntRR (A p : Nat) : Nat → Nat → Nat
  | _, 0 => 0
  | rr, M + 1 => (if rr % A = p then 1 else 0) + cntRR A p (rr + 1) M

/-- Cyclic distance from the counter `rr` to position `p` (mod `A`). -/
def distRR (A rr p : Nat) : Nat :=
  (p + A - rr % A) % A

/-- `WorkloadGenerator` control state (the task-id counter, burst flag
and inter-arrival range; the timing loop itself is real-time and not
modelled). -/
structure WorkloadGenerator where
  tid : Nat
  manual_burst : Bool
  rate_low : ℚ
  rate_high : ℚ
deriving DecidableEq, Repr, Inhabited

namespace WorkloadGenerator

/-- `trigger_burst()`. -/
def trigger_burst (g : WorkloadGenerator) : WorkloadGenerator :=
  { g with manual_burst := true }

/-- `set_rate(low, high)`. -/
def set_rate (g : WorkloadGenerator) (low high : ℚ) : WorkloadGenerator :=
  { g with rate_low := low, rate_high := high }

end WorkloadGenerator

/-- The simulator state a command frame can touch: the scheduler, the
workload generator, and the process-wide flags. -/
structure World where
  sched : Scheduler
  workload : WorkloadGenerator
  sim : SimState
deriving DecidableEq, Repr, Inhabited

/-- One incoming websocket text frame, after JSON parsing.  `badJSON`
is a frame `json.loads` rejects.  In a parsed frame, `cmd` and `val`
are `data.get(...)` results; `idInt` is `some i` when the frame carries
an `id` that `int(...)` accepts and `none` when `id` is missing or
unparsable (in which case `int(data.get("id"))` raises); `low` / `high`
are the numeric rate fields when present. -/
inductive Msg where
  | badJSON
  | frame (cmd : Option String) (val : Option String) (idInt : Option Int)
      (low : Option ℚ) (high : Option ℚ)
deriving DecidableEq, Repr

/-- One iteration of the `async for message in ws:` body of
`ws_handler`, returning the new world and whether the receive loop keeps
running.  Any exception (bad JSON, `int(None)`, …) is swallowed by the
handler's `except: pass`, which exits the loop: the handler returns and
the websocket library closes the connection — hence `false`.
`start_scenario` spawns the scenario coroutine and changes no state
synchronously; `toggle_record` flips the recording flag (its CSV file
side effects are I/O and not modelled). -/
def ws_handle (w : World) : Msg → World × Bool
  | .badJSON => (w, false)
  | .frame cmd val idInt low high =>
    match cmd with
    | none => (w, true)
    | some c =>
      if c = "burst" then ({ w with workload := w.workload.trigger_burst }, true)
      else if c = "policy" then ({ w with sched := { w.sched with policy := val } }, true)
      else if c = "kill" then
        match idInt with
        | none => (w, false)
        | some i => ({ w with sched := w.sched.kill_node i }, true)
      else if c = "revive" then
        match idInt with
        | none => (w, false)
        | some i => ({ w with sched := w.sched.revive_node i }, true)
      else if c = "toggle_record" then
        ({ w with sim := { w.sim with recording := !w.sim.recording } }, true)
      else if c = "start_scenario" then (w, true)
      else if c = "hello" then (w, true)
      else if c = "download" then (w, true)
      else if c = "set_rate" then
        ({ w with workload := w.workload.set_rate (low.getD (3/10)) (high.getD (8/10)) }, true)
      else (w, true)

/-- A concrete 4-node scheduler as built by `main()`
(`Scheduler(num_nodes=4, policy="work_stealing")`). -/
def exSched4 : Scheduler :=
  Scheduler.init 4 "work_stealing"

/-- A concrete completed task (positive wall-clock stamps). -/
def exDoneTask : Task :=
  { tid := 7, work_units := 1, created_at := 100, completed_at := some 103 }

/-- A concrete 2-node scheduler under `least_loaded`. -/
def exSchedLL : Scheduler :=
  Scheduler.init 2 "least_loaded"

/-- A concrete 2-node scheduler under `round_robin`. -/
def exSchedRR : Scheduler :=
  Scheduler.init 2 "round_robin"

/-- A concrete 3-node `work_stealing` scheduler: node 0 holds five
tasks, nodes 1 and 2 are idle. -/
def exSchedWS : Scheduler :=
  { policy := some "work_stealing",
    nodes :=
      [ { nid := 0, speed := 1,
          queue := [Node.exTask 0, Node.exTask 1, Node.exTask 2, Node.exTask 3, Node.exTask 4],
          busy := false, active := true, completed := 0 },
        { nid := 1, speed := 1, queue := [], busy := false, active := true, completed := 0 },
        { nid := 2, speed := 1, queue := [], busy := false, active := true, completed := 0 } ],
    task_queue := [],
    migrations := 0,
    latencies := [] }

/-- A concrete `SimState`. -/
def exSim : SimState :=
  { recording := false, scenario_active := false }

/-- A concrete world for command-handler witnesses. -/
def exWorld : World :=
  { sched := exSched4,
    workload := { tid := 0, manual_burst := false, rate_low := 1, rate_high := 2 },
    sim := exSim }

/-!  ### Theorems  -/

theorem updateAt_length (f : Node → Node) :
    ∀ (ns : List Node) (j : Nat), (updateAt j f ns).length = ns.length := by
  intro ns
  induction ns with
  | nil => intro j; cases j <;> rfl
  | cons n ns ih =>
    intro j
    cases j with
    | zero => rfl
    | succ j => simp [updateAt, ih j]

theorem updateAt_getD_same (f : Node → Node) (d : Node) :
    ∀ (ns : List Node) (j : Nat), j < ns.length →
      (updateAt j f ns).getD j d = f (ns.getD j d) := by
  intro ns
  induction ns with
  | nil => intro j h; simp at h
  | cons n ns ih =>
    intro j h
    cases j with
    | zero => rfl
    | succ j =>
      simp only [updateAt, List.getD_cons_succ]
      exact ih j (by simpa using h)

theorem updateAt_getD_ne (f : Node → Node) (d : Node) :
    ∀ (ns : List Node) (i j : Nat), i ≠ j →
      (updateAt j f ns).getD i d = ns.getD i d := by
  intro ns
  induction ns with
  | nil => intro i j _; cases j <;> rfl
  | cons n ns ih =>
    intro i j hij
    cases j with
    | zero =>
      cases i with
      | zero => exact absurd rfl hij
      | succ i => rfl
    | succ j =>
      cases i with
      | zero => rfl
      | succ i =>
        simp only [updateAt, List.getD_cons_succ]
        exact ih i j (by omega)

namespace Node

theorem stealLoop_spec (k : Nat) :
    ∀ q : List Task, k ≤ q.length →
      stealLoop k q = ((q.drop (q.length - k)).reverse, q.take (q.length - k)) := by
  induction k with
  | zero =>
    intro q _
    simp [stealLoop]
  | succ k ih =>
    intro q hk
    have hq : q ≠ [] := by
      intro h
      subst h
      simp at hk
    have hlast : q.getLast? = some (q.getLast hq) := List.getLast?_eq_getLast q hq
    have hdl : q.dropLast.length = q.length - 1 := List.length_dropLast q
    have hk1 : k ≤ q.dropLast.length := by omega
    have hrec := ih q.dropLast hk1
    have hsplit : q.dropLast ++ [q.getLast hq] = q := List.dropLast_append_getLast hq
    have hlen1 : 1 ≤ q.length := by omega
    -- index arithmetic
    have hidx : q.length - (k + 1) = q.dropLast.length - k := by omega
    have hidx2 : q.dropLast.length - k ≤ q.dropLast.length := by omega
    unfold stealLoop
    rw [hlast]
    simp only [hrec, Prod.mk.injEq]
    rw [hidx]
    set m := q.dropLast.length - k with hm
    constructor
    · -- stolen tasks
      conv_rhs => rw [← hsplit]
      rw [List.drop_append_of_le_length hidx2]
      simp
    · -- remaining queue
      conv_rhs => rw [← hsplit]
      rw [List.take_append_of_le_length hidx2]

end Node

/-- C1 counterexample: the claim asserts that an active node always
retains `max(1, L - k')` items after `steal_tasks`.  On an active node
with an empty queue (`L = 0`, so `k' = min(amount, max(0, L-1)) = 0`)
the node retains `0` items, not `max(1, 0) = 1`. -/
theorem C1_counterexample :
    Node.exEmptyNode.active = true ∧
    (Node.exEmptyNode.steal_tasks 1).2.queue.length ≠
      max 1 (Node.exEmptyNode.queue.length -
        min 1 (Node.exEmptyNode.queue.length - 1)) := by
  constructor
  · rfl
  · decide

/-- C1 (amended): for every node and every `steal(amount)`: if the node
is inactive the result is empty and the node (hence its queue) is
unchanged; otherwise, with `L` the queue length and
`k' = min(amount, max(0, L-1))`, exactly `k'` tasks are removed from the
back and returned in the order taken (back first, i.e. the reverse of the
dropped suffix), the node retains `L - k'` items — which equals
`max(1, L - k')` whenever `L ≥ 1` — and the remaining queue is exactly
the original front prefix, so the owner's front-pop order is unchanged;
all other node fields are unchanged. -/
theorem C1_steal_tasks_spec (n : Node) (amount : Nat) :
    (n.active = false → n.steal_tasks amount = ([], n)) ∧
    (n.active = true →
      (n.steal_tasks amount).1 =
        (n.queue.drop (n.queue.length - min amount (n.queue.length - 1))).reverse ∧
      (n.steal_tasks amount).1.length = min amount (n.queue.length - 1) ∧
      (n.steal_tasks amount).2.queue =
        n.queue.take (n.queue.length - min amount (n.queue.length - 1)) ∧
      (n.steal_tasks amount).2.queue.length =
        n.queue.length - min amount (n.queue.length - 1) ∧
      (1 ≤ n.queue.length →
        (n.steal_tasks amount).2.queue.length =
          max 1 (n.queue.length - min amount (n.queue.length - 1))) ∧
      (n.steal_tasks amount).2.nid = n.nid ∧
      (n.steal_tasks amount).2.speed = n.speed ∧
      (n.steal_tasks amount).2.busy = n.busy ∧
      (n.steal_tasks amount).2.active = n.active ∧
      (n.steal_tasks amount).2.completed = n.completed) := by
  constructor
  · intro ha
    simp [Node.steal_tasks, ha]
  · intro ha
    have hk : min amount (n.queue.length - 1) ≤ n.queue.length := by omega
    have hloop := Node.stealLoop_spec (min amount (n.queue.length - 1)) n.queue hk
    have hst : n.steal_tasks amount =
        ((n.queue.drop (n.queue.length - min amount (n.queue.length - 1))).reverse,
          { n with queue :=
              n.queue.take (n.queue.length - min amount (n.queue.length - 1)) }) := by
      simp [Node.steal_tasks, ha, hloop]
    rw [hst]
    refine ⟨rfl, ?_, rfl, ?_, ?_, rfl, rfl, rfl, rfl, rfl⟩
    · simp only [List.length_reverse, List.length_drop]
      omega
    · simp only [List.length_take]
      omega
    · intro hL
      simp only [List.length_take]
      omega

/-- C1 witness: the amended characterization evaluated on a concrete
active node holding three tasks, stealing `2`: the two youngest tasks
come back, youngest first, and the front task stays in place. -/
theorem C1_witness :
    Node.exNode3.active = true ∧
    (Node.exNode3.steal_tasks 2).1 = [Node.exTask 2, Node.exTask 1] ∧
    (Node.exNode3.steal_tasks 2).2.queue = [Node.exTask 0] ∧
    (Node.exNode3.steal_tasks 2).2.queue.length =
      max 1 (Node.exNode3.queue.length - min 2 (Node.exNode3.queue.length - 1)) := by
  have h := C1_steal_tasks_spec Node.exNode3 2
  have ha : Node.exNode3.active = true := rfl
  obtain ⟨-, h2⟩ := h
  obtain ⟨hs, hlen, hq, hql, hmax, -⟩ := h2 ha
  refine ⟨ha, ?_, ?_, ?_⟩
  · rw [hs]
    rfl
  · rw [hq]
    rfl
  · exact hmax (by decide)

/-- C9: a task whose `completed_at` is unset (`None`) leaves
`report_completion` a no-op: the latency window (indeed the whole
scheduler state) is unchanged. -/
theorem C9_report_completion_unset (s : Scheduler) (t : Task)
    (h : t.completed_at = none) :
    s.report_completion t = s := by
  simp [Scheduler.report_completion, h]

/-- C9 witness: a never-completed concrete task against the concrete
4-node scheduler. -/
theorem C9_witness :
    (Node.exTask 0).completed_at = none ∧
    exSched4.report_completion (Node.exTask 0) = exSched4 :=
  ⟨rfl, C9_report_completion_unset exSched4 (Node.exTask 0) rfl⟩

/-- C7: completing a task with (positive) wall-clock stamps appends its
latency `completed_at - created_at` to the rolling window; when the
window length then exceeds 5000 it is truncated to exactly its most
recent 2000 entries; and after every call the window holds at most 5000
latencies.  (The positivity hypotheses record that wall-clock
`time.time()` stamps are nonzero; the code's truthiness guard
`if task.completed_at and task.created_at:` would skip a literal-zero
stamp.) -/
theorem C7_report_completion_window (s : Scheduler) (t : Task) (c : ℚ)
    (hc : t.completed_at = some c) (hcpos : 0 < c) (hcr : 0 < t.created_at) :
    ((s.report_completion t).latencies =
      if 5000 < s.latencies.length + 1 then
        (s.latencies ++ [c - t.created_at]).drop (s.latencies.length + 1 - 2000)
      else s.latencies ++ [c - t.created_at]) ∧
    (5000 < s.latencies.length + 1 →
      (s.report_completion t).latencies =
        (s.latencies ++ [c - t.created_at]).drop (s.latencies.length + 1 - 2000) ∧
      (s.report_completion t).latencies.length = 2000) ∧
    (s.report_completion t).latencies.length ≤ 5000 := by
  have hc0 : c ≠ 0 := ne_of_gt hcpos
  have hcr0 : t.created_at ≠ 0 := ne_of_gt hcr
  have hstep : s.report_completion t =
      if 5000 < s.latencies.length + 1 then
        { s with latencies :=
            (s.latencies ++ [c - t.created_at]).drop (s.latencies.length + 1 - 2000) }
      else { s with latencies := s.latencies ++ [c - t.created_at] } := by
    simp only [Scheduler.report_completion, hc]
    rw [if_pos ⟨hc0, hcr0⟩]
    simp only [List.length_append, List.length_singleton]
  rw [hstep]
  by_cases hlen : 5000 < s.latencies.length + 1
  · simp only [if_pos hlen]
    refine ⟨trivial, fun _ => ⟨trivial, ?_⟩, ?_⟩
    · simp only [List.length_drop, List.length_append, List.length_singleton]
      omega
    · simp only [List.length_drop, List.length_append, List.length_singleton]
      omega
  · simp only [if_neg hlen]
    refine ⟨trivial, fun h => absurd h hlen, ?_⟩
    simp only [List.length_append, List.length_singleton]
    omega

/-- C7 witness: the concrete completed task (latency 3) appended to the
empty window of the concrete scheduler. -/
theorem C7_witness :
    (0:ℚ) < 103 ∧ (0:ℚ) < 100 ∧
    (exSched4.report_completion exDoneTask).latencies = [3] ∧
    (exSched4.report_completion exDoneTask).latencies.length ≤ 5000 := by
  have h := C7_report_completion_window exSched4 exDoneTask 103 rfl
    (by norm_num) (by norm_num [exDoneTask])
  refine ⟨by norm_num, by norm_num, ?_, h.2.2⟩
  have h1 := h.1
  simp only [exSched4, Scheduler.init] at h1 ⊢
  rw [h1]
  norm_num [exDoneTask]

/-- C2: `kill(nid)` with `0 ≤ nid < N` deactivates node `nid`, empties
its local queue, and appends every drained task to the ingest queue
(`task_queue' = task_queue ++ drained`, so the multiset drained equals
the multiset re-submitted and no queued task is lost), leaving every
other node and all remaining scheduler fields unchanged; out of range,
both `kill(nid)` and `revive(nid)` change nothing. -/
theorem C2_kill_node_spec (s : Scheduler) (nid : Int) :
    (0 ≤ nid ∧ nid < s.nodes.length →
      ((s.kill_node nid).nodes.getD nid.toNat default).active = false ∧
      ((s.kill_node nid).nodes.getD nid.toNat default).queue = [] ∧
      (s.kill_node nid).task_queue =
        s.task_queue ++ (s.nodes.getD nid.toNat default).queue ∧
      (s.kill_node nid).nodes.length = s.nodes.length ∧
      (∀ j, j ≠ nid.toNat →
        (s.kill_node nid).nodes.getD j default = s.nodes.getD j default) ∧
      (s.kill_node nid).policy = s.policy ∧
      (s.kill_node nid).migrations = s.migrations ∧
      (s.kill_node nid).latencies = s.latencies) ∧
    (¬(0 ≤ nid ∧ nid < s.nodes.length) →
      s.kill_node nid = s ∧ s.revive_node nid = s) := by
  constructor
  · intro h
    have hlt : nid.toNat < s.nodes.length := by omega
    have hk : s.kill_node nid =
        { s with
          nodes := updateAt nid.toNat
            (fun n => { n with active := false, queue := [] }) s.nodes,
          task_queue := s.task_queue ++ (s.nodes.getD nid.toNat default).queue } := by
      simp only [Scheduler.kill_node, if_pos h]
    rw [hk]
    refine ⟨?_, ?_, rfl, updateAt_length _ _ _, ?_, rfl, rfl, rfl⟩
    · rw [updateAt_getD_same _ _ _ _ hlt]
    · rw [updateAt_getD_same _ _ _ _ hlt]
    · intro j hj
      exact updateAt_getD_ne _ _ _ _ _ (by omega)
  · intro h
    constructor
    · simp [Scheduler.kill_node, h]
    · simp [Scheduler.revive_node, h]

/-- C2 witness: killing node 9 (out of range) of the concrete 4-node
scheduler is a no-op for both `kill` and `revive`; killing node 2 (in
range) empties its queue and deactivates it. -/
theorem C2_witness :
    (¬((0:Int) ≤ 9 ∧ (9:Int) < exSched4.nodes.length) ∧
      exSched4.kill_node 9 = exSched4 ∧ exSched4.revive_node 9 = exSched4) ∧
    ((0:Int) ≤ 2 ∧ (2:Int) < exSched4.nodes.length ∧
      ((exSched4.kill_node 2).nodes.getD 2 default).active = false ∧
      (exSched4.kill_node 2).task_queue = []) := by
  have hout : ¬((0:Int) ≤ 9 ∧ (9:Int) < exSched4.nodes.length) := by
    simp [exSched4, Scheduler.init]
  have hin : (0:Int) ≤ 2 ∧ (2:Int) < exSched4.nodes.length := by
    simp [exSched4, Scheduler.init]
  have h9 := (C2_kill_node_spec exSched4 9).2 hout
  have h2 := (C2_kill_node_spec exSched4 2).1 hin
  refine ⟨⟨hout, h9.1, h9.2⟩, hin.1, hin.2, h2.1, ?_⟩
  rw [h2.2.2.1]
  rfl

theorem le_roundHalfEven (x : ℚ) : ⌊x⌋ ≤ roundHalfEven x := by
  unfold roundHalfEven
  split
  · exact le_refl _
  · split
    · omega
    · split <;> omega

theorem roundHalfEven_nonneg (x : ℚ) (h : 0 ≤ x) : 0 ≤ roundHalfEven x :=
  le_trans (Int.floor_nonneg.mpr h) (le_roundHalfEven x)

theorem roundHalfEven_le_of_le (x : ℚ) (B : ℤ) (h : x ≤ B) : roundHalfEven x ≤ B := by
  have hfl : ⌊x⌋ ≤ B := by
    have := Int.floor_le_floor h
    simpa using this
  unfold roundHalfEven
  by_cases h1 : x - ⌊x⌋ < 1/2
  · rw [if_pos h1]
    exact hfl
  · rw [if_neg h1]
    have hhalf : (1:ℚ)/2 ≤ x - ⌊x⌋ := not_lt.mp h1
    have hltB : ⌊x⌋ < B := by
      have hx : (⌊x⌋ : ℚ) + 1/2 ≤ x := by linarith
      have hxB : (⌊x⌋ : ℚ) < (B : ℚ) := by linarith [le_trans hx h]
      exact_mod_cast hxB
    by_cases h2 : 1/2 < x - ⌊x⌋
    · rw [if_pos h2]
      omega
    · rw [if_neg h2]
      split <;> omega

theorem pyRound_nonneg (d : Nat) (x : ℚ) (h : 0 ≤ x) : 0 ≤ pyRound d x := by
  unfold pyRound
  have h1 : (0:ℤ) ≤ roundHalfEven (x * 10 ^ d) :=
    roundHalfEven_nonneg _ (by positivity)
  have h2 : (0:ℚ) ≤ (roundHalfEven (x * 10 ^ d) : ℚ) := by exact_mod_cast h1
  positivity

theorem pyRound_le_of_le (d : Nat) (x : ℚ) (B : ℤ) (h : x ≤ B) : pyRound d x ≤ B := by
  unfold pyRound
  have hpow : (0:ℚ) < 10 ^ d := by positivity
  have h1 : x * 10 ^ d ≤ (B * 10 ^ d : ℤ) := by
    push_cast
    exact mul_le_mul_of_nonneg_right h (le_of_lt hpow)
  have h2 := roundHalfEven_le_of_le (x * 10 ^ d) (B * 10 ^ d) h1
  rw [div_le_iff₀ hpow]
  calc (roundHalfEven (x * 10 ^ d) : ℚ) ≤ ((B * 10 ^ d : ℤ) : ℚ) := by exact_mod_cast h2
    _ = (B : ℚ) * 10 ^ d := by push_cast; ring

theorem pyRound_zero (d : Nat) : pyRound d 0 = 0 := by
  unfold pyRound roundHalfEven
  norm_num

theorem getD_nonneg (l : List ℚ) (h : ∀ x ∈ l, 0 ≤ x) (i : Nat) : 0 ≤ l.getD i 0 := by
  rw [List.getD_eq_getElem?_getD]
  cases hget : l[i]? with
  | none => simp
  | some x =>
    have hx : x ∈ l := List.getElem?_mem hget
    simpa using h x hx

theorem length_filter_busy_le (l : List Node) :
    (l.filter (fun n => n.active && n.busy)).length ≤ (l.filter (fun n => n.active)).length := by
  rw [← List.countP_eq_length_filter, ← List.countP_eq_length_filter]
  exact List.countP_mono_left (fun n _ hb => by
    simp only [Bool.and_eq_true] at hb
    exact hb.1)

/-- C8: for every scheduler state whose recorded latencies are
nonnegative (always the case under a monotone wall clock, since each
entry is `completed_at - created_at`): the three per-node arrays have
length `N`; `utilization` is `busy_active / total_active * 100` (0 with
no active node) and lies in `[0, 100]`; `avg_latency` is the rounded
mean of the last at most 50 recorded latencies and `p95_latency` the
rounded sample at index `floor(0.95 * len)` of their ascending sort,
both 0 when none are recorded, and both nonnegative. -/
theorem C8_snapshot_stats (s : Scheduler) (sim : SimState) (now : ℚ)
    (hnn : ∀ l ∈ s.latencies, 0 ≤ l) :
    (s.snapshot sim now).queue_lengths.length = s.nodes.length ∧
    (s.snapshot sim now).node_status.length = s.nodes.length ∧
    (s.snapshot sim now).completed.length = s.nodes.length ∧
    0 ≤ (s.snapshot sim now).utilization ∧
    (s.snapshot sim now).utilization ≤ 100 ∧
    0 ≤ (s.snapshot sim now).avg_latency ∧
    0 ≤ (s.snapshot sim now).p95_latency ∧
    (s.latencies = [] →
      (s.snapshot sim now).avg_latency = 0 ∧ (s.snapshot sim now).p95_latency = 0) ∧
    (s.latencies ≠ [] →
      (s.snapshot sim now).avg_latency =
        pyRound 3 ((s.latencies.drop (s.latencies.length - 50)).sum /
          ((s.latencies.drop (s.latencies.length - 50)).length : ℚ)) ∧
      (s.snapshot sim now).p95_latency =
        pyRound 3 (((s.latencies.drop (s.latencies.length - 50)).insertionSort (· ≤ ·)).getD
          ((s.latencies.drop (s.latencies.length - 50)).length * 95 / 100) 0)) ∧
    ((s.nodes.filter (fun n => n.active)).length = 0 →
      (s.snapshot sim now).utilization = 0) ∧
    (0 < (s.nodes.filter (fun n => n.active)).length →
      (s.snapshot sim now).utilization =
        pyRound 1 (((s.nodes.filter (fun n => n.active && n.busy)).length : ℚ) /
          ((s.nodes.filter (fun n => n.active)).length : ℚ) * 100)) := by
  have key : ∀ r : List ℚ, (∀ x ∈ r, (0:ℚ) ≤ x) →
      0 ≤ pyRound 3 (if r.isEmpty then 0 else r.sum / (r.length : ℚ)) ∧
      0 ≤ pyRound 3 (if r.isEmpty then 0
        else (r.insertionSort (· ≤ ·)).getD (r.length * 95 / 100) 0) := by
    intro r hr
    constructor
    · refine pyRound_nonneg _ _ ?_
      split
      · exact le_refl 0
      · exact div_nonneg (List.sum_nonneg hr) (by positivity)
    · refine pyRound_nonneg _ _ ?_
      split
      · exact le_refl 0
      · exact getD_nonneg _
          (fun x hx => hr x ((List.perm_insertionSort _ _).mem_iff.mp hx)) _
  -- utilization bounds
  have hutil : 0 ≤ (s.snapshot sim now).utilization ∧
      (s.snapshot sim now).utilization ≤ 100 := by
    simp only [Scheduler.snapshot]
    by_cases hac : 0 < (s.nodes.filter (fun n => n.active)).length
    · rw [if_pos hac]
      have hble := length_filter_busy_le s.nodes
      have hapos : (0:ℚ) < ((s.nodes.filter (fun n => n.active)).length : ℚ) := by
        exact_mod_cast hac
      have hq : ((s.nodes.filter (fun n => n.active && n.busy)).length : ℚ) /
          ((s.nodes.filter (fun n => n.active)).length : ℚ) * 100 ≤ 100 := by
        have hdiv : ((s.nodes.filter (fun n => n.active && n.busy)).length : ℚ) /
            ((s.nodes.filter (fun n => n.active)).length : ℚ) ≤ 1 := by
          rw [div_le_one hapos]
          exact_mod_cast hble
        linarith
      refine ⟨pyRound_nonneg _ _ (by positivity), ?_⟩
      have hle := pyRound_le_of_le 1 _ 100 (by exact_mod_cast hq)
      exact_mod_cast hle
    · rw [if_neg hac, pyRound_zero]
      norm_num
  -- avg and p95 nonnegativity
  have hrec0 : ∀ x ∈ ([0] : List ℚ), (0:ℚ) ≤ x := by
    intro x hx
    simp at hx
    simp [hx]
  have hrecd : ∀ x ∈ s.latencies.drop (s.latencies.length - 50), (0:ℚ) ≤ x :=
    fun x hx => hnn x (List.mem_of_mem_drop hx)
  have havg : 0 ≤ (s.snapshot sim now).avg_latency := by
    simp only [Scheduler.snapshot]
    split
    · exact (key [0] hrec0).1
    · exact (key _ hrecd).1
  have hp95 : 0 ≤ (s.snapshot sim now).p95_latency := by
    simp only [Scheduler.snapshot]
    split
    · exact (key [0] hrec0).2
    · exact (key _ hrecd).2
  refine ⟨by simp [Scheduler.snapshot], by simp [Scheduler.snapshot],
    by simp [Scheduler.snapshot], hutil.1, hutil.2, havg, hp95, ?_, ?_, ?_, ?_⟩
  · intro hemp
    have hempb : s.latencies.isEmpty = true := by simp [hemp]
    constructor
    · norm_num [Scheduler.snapshot, hempb, pyRound_zero]
    · norm_num [Scheduler.snapshot, hempb, pyRound_zero, List.insertionSort,
        List.orderedInsert]
  · intro hne
    have hempb : s.latencies.isEmpty = false := by
      simpa [List.isEmpty_iff] using hne
    have hdne : (s.latencies.drop (s.latencies.length - 50)).isEmpty = false := by
      have hlen : s.latencies.length ≠ 0 := by
        simpa [← List.length_eq_zero] using hne
      rw [Bool.eq_false_iff]
      intro hh
      have := List.isEmpty_iff.mp hh
      rw [← List.length_eq_zero, List.length_drop] at this
      omega
    constructor
    · simp only [Scheduler.snapshot, hempb, Bool.false_eq_true, if_false]
      rw [if_neg (by simp [hdne])]
    · simp only [Scheduler.snapshot, hempb, Bool.false_eq_true, if_false]
      rw [if_neg (by simp [hdne])]
  · intro hac
    simp only [Scheduler.snapshot]
    rw [if_neg (by omega), pyRound_zero]
  · intro hac
    simp only [Scheduler.snapshot]
    rw [if_pos hac]

/-- C8 witness: the fresh concrete 4-node scheduler (no latencies yet):
array lengths are 4, utilization is within bounds, and the empty-window
statistics are 0. -/
theorem C8_witness :
    (∀ l ∈ exSched4.latencies, (0:ℚ) ≤ l) ∧
    (exSched4.snapshot exSim 0).queue_lengths.length = 4 ∧
    0 ≤ (exSched4.snapshot exSim 0).utilization ∧
    (exSched4.snapshot exSim 0).utilization ≤ 100 ∧
    (exSched4.snapshot exSim 0).avg_latency = 0 ∧
    (exSched4.snapshot exSim 0).p95_latency = 0 := by
  have hnn : ∀ l ∈ exSched4.latencies, (0:ℚ) ≤ l := by
    intro l hl
    simp [exSched4, Scheduler.init] at hl
  have h := C8_snapshot_stats exSched4 exSim 0 hnn
  have hemp : exSched4.latencies = [] := rfl
  refine ⟨hnn, ?_, h.2.2.2.1, h.2.2.2.2.1,
    (h.2.2.2.2.2.2.2.1 hemp).1, (h.2.2.2.2.2.2.2.1 hemp).2⟩
  rw [h.1]
  simp [exSched4, Scheduler.init]

/-- C5 counterexample: the claim asserts every malformed frame — in
particular one whose `policy` value is outside
`{round_robin, least_loaded, work_stealing}` — is ignored with the
simulator state unchanged and the connection open.  On the concrete
world, `{"cmd":"policy","val":"bogus"}` overwrites the policy (state
changed), and a bad-JSON frame makes the handler exit its receive loop
(connection closed). -/
theorem C5_counterexample :
    ((ws_handle exWorld (.frame (some "policy") (some "bogus") none none none)).1.sched.policy
        = some "bogus" ∧
      exWorld.sched.policy = some "work_stealing" ∧
      (ws_handle exWorld (.frame (some "policy") (some "bogus") none none none)).1.sched.policy
        ≠ exWorld.sched.policy) ∧
    (ws_handle exWorld Msg.badJSON).2 = false := by
  refine ⟨⟨rfl, rfl, ?_⟩, rfl⟩
  intro h
  have h2 : (some "bogus" : Option String) = some "work_stealing" := h
  simp at h2

/-- C5 (amended): frames with a missing `cmd`, an unknown verb, or an
in-frame integer `id` out of node range on `kill`/`revive` are ignored
silently — state unchanged, connection open.  A frame `json.loads`
rejects, and a `kill`/`revive` frame whose `id` is missing or
non-integer, also leave the state unchanged, but the raised exception
ends the handler's receive loop, so the connection closes rather than
stays open.  A `policy` frame is not validated: the handler stores
whatever value the frame carries — state changes even for values
outside `{round_robin, least_loaded, work_stealing}`. -/
theorem C5_ws_handler_spec (w : World) :
    (∀ val idInt low high, ws_handle w (.frame none val idInt low high) = (w, true)) ∧
    (∀ c val idInt low high,
      c ∉ (["burst", "policy", "kill", "revive", "toggle_record",
        "start_scenario", "hello", "download", "set_rate"] : List String) →
      ws_handle w (.frame (some c) val idInt low high) = (w, true)) ∧
    (∀ i val low high, ¬(0 ≤ i ∧ i < (w.sched.nodes.length : Int)) →
      ws_handle w (.frame (some "kill") val (some i) low high) = (w, true) ∧
      ws_handle w (.frame (some "revive") val (some i) low high) = (w, true)) ∧
    ws_handle w .badJSON = (w, false) ∧
    (∀ val low high,
      ws_handle w (.frame (some "kill") val none low high) = (w, false) ∧
      ws_handle w (.frame (some "revive") val none low high) = (w, false)) ∧
    (∀ val idInt low high,
      (ws_handle w (.frame (some "policy") val idInt low high)).1.sched.policy = val) := by
  refine ⟨?_, ?_, ?_, rfl, ?_, ?_⟩
  · intro val idInt low high
    rfl
  · intro c val idInt low high hc
    simp only [List.mem_cons, List.mem_singleton, not_or] at hc
    obtain ⟨h1, h2, h3, h4, h5, h6, h7, h8, h9, -⟩ := hc
    simp [ws_handle, h1, h2, h3, h4, h5, h6, h7, h8, h9]
  · intro i val low high hi
    have hk : w.sched.kill_node i = w.sched := by
      simp [Scheduler.kill_node, hi]
    have hr : w.sched.revive_node i = w.sched := by
      simp [Scheduler.revive_node, hi]
    constructor
    · simp [ws_handle, hk]
    · simp [ws_handle, hr]
  · intro val low high
    constructor <;> rfl
  · intro val idInt low high
    rfl

/-- C5 witness: the amended behaviour evaluated on the concrete world —
an unknown verb and an out-of-range kill are no-ops with the connection
open, and a kill frame with no parsable id closes the connection with
the world unchanged. -/
theorem C5_witness :
    ws_handle exWorld (.frame (some "frobnicate") none none none none) = (exWorld, true) ∧
    (¬((0:Int) ≤ 99 ∧ (99:Int) < (exWorld.sched.nodes.length : Int)) ∧
      ws_handle exWorld (.frame (some "kill") none (some 99) none none) = (exWorld, true)) ∧
    ws_handle exWorld (.frame (some "kill") none none none none) = (exWorld, false) := by
  have h := C5_ws_handler_spec exWorld
  have hrange : ¬((0:Int) ≤ 99 ∧ (99:Int) < (exWorld.sched.nodes.length : Int)) := by
    simp [exWorld, exSched4, Scheduler.init]
  refine ⟨h.2.1 "frobnicate" none none none none (by decide), ⟨hrange, ?_⟩, ?_⟩
  · exact (h.2.2.1 99 none none none hrange).1
  · exact (h.2.2.2.2.1 none none none).1

theorem pyMinBy_mem (key : α → Nat) :
    ∀ (xs : List α) (b : α), pyMinBy key b xs = b ∨ pyMinBy key b xs ∈ xs := by
  intro xs
  induction xs with
  | nil => intro b; exact Or.inl rfl
  | cons x xs ih =>
    intro b
    simp only [pyMinBy]
    by_cases h : key x < key b
    · rw [if_pos h]
      rcases ih x with h2 | h2
      · exact Or.inr (by rw [h2]; exact List.mem_cons_self x xs)
      · exact Or.inr (List.mem_cons_of_mem x h2)
    · rw [if_neg h]
      rcases ih b with h2 | h2
      · exact Or.inl h2
      · exact Or.inr (List.mem_cons_of_mem x h2)

theorem pyMinBy_le (key : α → Nat) :
    ∀ (xs : List α) (b x : α), x ∈ b :: xs → key (pyMinBy key b xs) ≤ key x := by
  intro xs
  induction xs with
  | nil =>
    intro b x hx
    simp at hx
    subst hx
    exact le_refl _
  | cons y ys ih =>
    intro b x hx
    simp only [pyMinBy]
    have hstep1 : key (if key y < key b then y else b) ≤ key b := by
      split <;> omega
    have hstep2 : key (if key y < key b then y else b) ≤ key y := by
      split <;> omega
    rcases List.mem_cons.mp hx with rfl | hx2
    · exact le_trans (ih _ _ (List.mem_cons_self _ _)) hstep1
    · rcases List.mem_cons.mp hx2 with rfl | hx3
      · exact le_trans (ih _ _ (List.mem_cons_self _ _)) hstep2
      · exact ih _ _ (List.mem_cons_of_mem _ hx3)

theorem pyMinBy_tie_first (key idx : α → Nat) :
    ∀ (xs : List α) (b : α), (b :: xs).Pairwise (fun a c => idx a < idx c) →
      ∀ x ∈ b :: xs, key x = key (pyMinBy key b xs) → idx (pyMinBy key b xs) ≤ idx x := by
  intro xs
  induction xs with
  | nil =>
    intro b _ x hx _
    simp at hx
    subst hx
    exact le_refl _
  | cons y ys ih =>
    intro b hpw x hx he
    simp only [pyMinBy] at he ⊢
    by_cases h : key y < key b
    · rw [if_pos h] at he ⊢
      have hpw2 : (y :: ys).Pairwise (fun a c => idx a < idx c) :=
        (List.pairwise_cons.mp hpw).2
      rcases List.mem_cons.mp hx with rfl | hx2
      · exfalso
        have hle := pyMinBy_le key ys y y (List.mem_cons_self _ _)
        omega
      · exact ih y hpw2 x hx2 he
    · rw [if_neg h] at he ⊢
      have hpw2 : (b :: ys).Pairwise (fun a c => idx a < idx c) :=
        List.Pairwise.sublist ((List.sublist_cons_self y ys).cons₂ b) hpw
      rcases List.mem_cons.mp hx with rfl | hx2
      · exact ih x hpw2 x (List.mem_cons_self _ _) he
      · rcases List.mem_cons.mp hx2 with rfl | hx3
        · have hle_b := pyMinBy_le key ys b b (List.mem_cons_self _ _)
          have hkb : key b = key (pyMinBy key b ys) := by omega
          have hidx_b := ih b hpw2 b (List.mem_cons_self _ _) hkb
          have hby : idx b < idx x := (List.pairwise_cons.mp hpw).1 x (List.mem_cons_self _ _)
          omega
        · exact ih b hpw2 x (List.mem_cons_of_mem _ hx3) he

theorem pyMaxBy_mem (key : α → Nat) :
    ∀ (xs : List α) (b : α), pyMaxBy key b xs = b ∨ pyMaxBy key b xs ∈ xs := by
  intro xs
  induction xs with
  | nil => intro b; exact Or.inl rfl
  | cons x xs ih =>
    intro b
    simp only [pyMaxBy]
    by_cases h : key b < key x
    · rw [if_pos h]
      rcases ih x with h2 | h2
      · exact Or.inr (by rw [h2]; exact List.mem_cons_self x xs)
      · exact Or.inr (List.mem_cons_of_mem x h2)
    · rw [if_neg h]
      rcases ih b with h2 | h2
      · exact Or.inl h2
      · exact Or.inr (List.mem_cons_of_mem x h2)

theorem pyMaxBy_ge (key : α → Nat) :
    ∀ (xs : List α) (b x : α), x ∈ b :: xs → key x ≤ key (pyMaxBy key b xs) := by
  intro xs
  induction xs with
  | nil =>
    intro b x hx
    simp at hx
    subst hx
    exact le_refl _
  | cons y ys ih =>
    intro b x hx
    simp only [pyMaxBy]
    have hstep1 : key b ≤ key (if key b < key y then y else b) := by
      split <;> omega
    have hstep2 : key y ≤ key (if key b < key y then y else b) := by
      split <;> omega
    rcases List.mem_cons.mp hx with rfl | hx2
    · exact le_trans hstep1 (ih _ _ (List.mem_cons_self _ _))
    · rcases List.mem_cons.mp hx2 with rfl | hx3
      · exact le_trans hstep2 (ih _ _ (List.mem_cons_self _ _))
      · exact ih _ _ (List.mem_cons_of_mem _ hx3)

theorem enumFrom_mem :
    ∀ (ns : List Node) (k : Nat) (x : Nat × Node), x ∈ enumFrom k ns →
      k ≤ x.1 ∧ x.1 - k < ns.length ∧ ns.getD (x.1 - k) default = x.2 := by
  intro ns
  induction ns with
  | nil => intro k x hx; simp [enumFrom] at hx
  | cons n ns ih =>
    intro k x hx
    simp only [enumFrom, List.mem_cons] at hx
    rcases hx with rfl | hx2
    · simp
    · obtain ⟨h1, h2, h3⟩ := ih (k + 1) x hx2
      refine ⟨by omega, by simp only [List.length_cons]; omega, ?_⟩
      have heq : x.1 - k = (x.1 - (k + 1)) + 1 := by omega
      rw [heq, List.getD_cons_succ]
      exact h3

theorem enumFrom_mem_of_lt :
    ∀ (ns : List Node) (k j : Nat), j < ns.length →
      (k + j, ns.getD j default) ∈ enumFrom k ns := by
  intro ns
  induction ns with
  | nil => intro k j h; simp at h
  | cons n ns ih =>
    intro k j h
    cases j with
    | zero => simp [enumFrom]
    | succ j =>
      simp only [enumFrom, List.getD_cons_succ]
      refine List.mem_cons_of_mem _ ?_
      have := ih (k + 1) j (by simpa using h)
      have heq : k + (j + 1) = (k + 1) + j := by omega
      rw [heq]
      exact this

theorem enumFrom_pairwise :
    ∀ (ns : List Node) (k : Nat), (enumFrom k ns).Pairwise (fun a b => a.1 < b.1) := by
  intro ns
  induction ns with
  | nil => intro k; simp [enumFrom]
  | cons n ns ih =>
    intro k
    simp only [enumFrom]
    refine List.pairwise_cons.mpr ⟨?_, ih (k + 1)⟩
    intro x hx
    have := enumFrom_mem ns (k + 1) x hx
    omega

theorem activePairs_mem (s : Scheduler) :
    ∀ pr ∈ s.activePairs, pr.1 < s.nodes.length ∧
      s.nodes.getD pr.1 default = pr.2 ∧ pr.2.active = true := by
  intro pr hpr
  have h1 := List.mem_filter.mp hpr
  have h2 := enumFrom_mem s.nodes 0 pr h1.1
  have heq : pr.1 - 0 = pr.1 := by omega
  rw [heq] at h2
  exact ⟨by omega, h2.2.2, by simpa using h1.2⟩

theorem activePairs_of_active (s : Scheduler) (j : Nat) (hj : j < s.nodes.length)
    (ha : (s.nodes.getD j default).active = true) :
    (j, s.nodes.getD j default) ∈ s.activePairs := by
  refine List.mem_filter.mpr ⟨?_, by simpa using ha⟩
  have := enumFrom_mem_of_lt s.nodes 0 j hj
  simpa using this

theorem activePairs_pairwise (s : Scheduler) :
    s.activePairs.Pairwise (fun a b => a.1 < b.1) :=
  List.Pairwise.filter _ (enumFrom_pairwise s.nodes 0)

/-- C3: under `least_loaded` (and `work_stealing` at placement time),
with a non-empty active set, the dispatcher's chosen target is an active
node whose pre-placement queue length is ≤ every other active node's,
and among ties the scan (Python `min`) picks the first — i.e. smallest —
position; under the construction invariant `nid = position` this is the
smallest node identity.  The dispatched task is pushed onto exactly that
node. -/
theorem C3_least_loaded_spec (s : Scheduler) (rr : Nat) (task : Task)
    (hpol : s.policy = some "least_loaded" ∨ s.policy = some "work_stealing")
    (p : Nat × Node) (ps : List (Nat × Node)) (hact : s.activePairs = p :: ps) :
    s.dispatchTarget rr = some ((pyMinBy (fun q => q.2.queue_len) p ps).1, rr) ∧
    pyMinBy (fun q => q.2.queue_len) p ps ∈ s.activePairs ∧
    (pyMinBy (fun q => q.2.queue_len) p ps).1 < s.nodes.length ∧
    s.nodes.getD (pyMinBy (fun q => q.2.queue_len) p ps).1 default =
      (pyMinBy (fun q => q.2.queue_len) p ps).2 ∧
    (pyMinBy (fun q => q.2.queue_len) p ps).2.active = true ∧
    (∀ q ∈ s.activePairs,
      (pyMinBy (fun q => q.2.queue_len) p ps).2.queue_len ≤ q.2.queue_len) ∧
    (∀ q ∈ s.activePairs,
      q.2.queue_len = (pyMinBy (fun q => q.2.queue_len) p ps).2.queue_len →
      (pyMinBy (fun q => q.2.queue_len) p ps).1 ≤ q.1) ∧
    ((∀ i, i < s.nodes.length → (s.nodes.getD i default).nid = i) →
      ∀ q ∈ s.activePairs,
        q.2.queue_len = (pyMinBy (fun q => q.2.queue_len) p ps).2.queue_len →
        (pyMinBy (fun q => q.2.queue_len) p ps).2.nid ≤ q.2.nid) ∧
    (s.assign_step rr task).1.nodes =
      updateAt (pyMinBy (fun q => q.2.queue_len) p ps).1 (fun n => n.push task) s.nodes := by
  have hdt : s.dispatchTarget rr = some ((pyMinBy (fun q => q.2.queue_len) p ps).1, rr) := by
    rcases hpol with h | h <;> simp [Scheduler.dispatchTarget, hact, h]
  have hmem : pyMinBy (fun q => q.2.queue_len) p ps ∈ s.activePairs := by
    rw [hact]
    rcases pyMinBy_mem (fun q => q.2.queue_len) ps p with h | h
    · rw [h]; exact List.mem_cons_self _ _
    · exact List.mem_cons_of_mem _ h
  have hprop := activePairs_mem s _ hmem
  have hmin : ∀ q ∈ s.activePairs,
      (pyMinBy (fun q => q.2.queue_len) p ps).2.queue_len ≤ q.2.queue_len := by
    intro q hq
    rw [hact] at hq
    exact pyMinBy_le (fun q => q.2.queue_len) ps p q hq
  have htie : ∀ q ∈ s.activePairs,
      q.2.queue_len = (pyMinBy (fun q => q.2.queue_len) p ps).2.queue_len →
      (pyMinBy (fun q => q.2.queue_len) p ps).1 ≤ q.1 := by
    intro q hq he
    rw [hact] at hq
    exact pyMinBy_tie_first (fun q => q.2.queue_len) Prod.fst ps p
      (by rw [← hact]; exact activePairs_pairwise s) q hq he
  refine ⟨hdt, hmem, hprop.1, hprop.2.1, hprop.2.2, hmin, htie, ?_, ?_⟩
  · intro hwf q hq he
    have h1 := htie q hq he
    have h2 := activePairs_mem s q hq
    have h3 : (pyMinBy (fun q => q.2.queue_len) p ps).2.nid =
        (pyMinBy (fun q => q.2.queue_len) p ps).1 := by
      rw [← hprop.2.1]
      exact hwf _ hprop.1
    have h4 : q.2.nid = q.1 := by
      rw [← h2.2.1]
      exact hwf _ h2.1
    omega
  · unfold Scheduler.assign_step
    rw [hdt]

/-- C3 witness: the concrete fresh 2-node `least_loaded` scheduler —
both queues are empty, so the tie goes to node 0 and the dispatcher
reports node 0 as the target. -/
theorem C3_witness :
    (exSchedLL.policy = some "least_loaded" ∨
      exSchedLL.policy = some "work_stealing") ∧
    ∃ p ps, exSchedLL.activePairs = p :: ps ∧
      exSchedLL.dispatchTarget 0 = some ((pyMinBy (fun q => q.2.queue_len) p ps).1, 0) ∧
      (pyMinBy (fun q => q.2.queue_len) p ps).1 = 0 := by
  have hact : exSchedLL.activePairs =
      (0, exSchedLL.nodes.getD 0 default) :: [(1, exSchedLL.nodes.getD 1 default)] := rfl
  have h := C3_least_loaded_spec exSchedLL 0 (Node.exTask 0) (Or.inl rfl) _ _ hact
  exact ⟨Or.inl rfl, _, _, hact, h.1, rfl⟩

theorem mod_two_block (A y : Nat) (_hA : 0 < A) (hy : y < 2 * A) :
    y % A = if y < A then y else y - A := by
  split
  · exact Nat.mod_eq_of_lt (by assumption)
  · have h1 : A ≤ y := not_lt.mp (by assumption)
    rw [Nat.mod_eq_sub_mod h1]
    exact Nat.mod_eq_of_lt (by omega)

theorem distRR_lt (A rr p : Nat) (hA : 0 < A) : distRR A rr p < A :=
  Nat.mod_lt _ hA

theorem distRR_eq_zero_iff (A rr p : Nat) (hA : 0 < A) (hp : p < A) :
    distRR A rr p = 0 ↔ rr % A = p := by
  unfold distRR
  have hm : rr % A < A := Nat.mod_lt _ hA
  have hb : p + A - rr % A < 2 * A := by omega
  rw [mod_two_block A _ hA hb]
  split <;> omega

theorem distRR_succ (A rr p : Nat) (hA : 0 < A) (hp : p < A) :
    distRR A (rr + 1) p = if distRR A rr p = 0 then A - 1 else distRR A rr p - 1 := by
  unfold distRR
  have hm : rr % A < A := Nat.mod_lt _ hA
  have hsucc : (rr + 1) % A = (rr % A + 1) % A := (Nat.mod_add_mod rr A 1).symm
  rw [hsucc, mod_two_block A (rr % A + 1) hA (by omega)]
  by_cases hc : rr % A + 1 < A
  · rw [if_pos hc]
    have h1 : p + A - rr % A < 2 * A := by omega
    have h2 : p + A - (rr % A + 1) < 2 * A := by omega
    rw [mod_two_block A _ hA h1, mod_two_block A _ hA h2]
    split_ifs <;> first | contradiction | omega
  · rw [if_neg hc]
    have h3 : p + A - (rr % A + 1 - A) = p + A := by omega
    rw [h3]
    have h4 : (p + A) % A = p := by
      rw [Nat.add_mod_right]
      exact Nat.mod_eq_of_lt hp
    rw [h4]
    have h5 : p + A - rr % A = p + 1 := by omega
    rw [h5, mod_two_block A (p + 1) hA (by omega)]
    split_ifs <;> first | contradiction | omega

theorem cntRR_closed (A p : Nat) (hA : 0 < A) (hp : p < A) :
    ∀ (M rr : Nat), cntRR A p rr M = (M + A - 1 - distRR A rr p) / A := by
  intro M
  induction M with
  | zero =>
    intro rr
    simp only [cntRR]
    symm
    apply Nat.div_eq_of_lt
    have := distRR_lt A rr p hA
    omega
  | succ M ih =>
    intro rr
    have hd := distRR_lt A rr p hA
    simp only [cntRR]
    rw [ih (rr + 1), distRR_succ A rr p hA hp]
    by_cases h : rr % A = p
    · have h0 : distRR A rr p = 0 := (distRR_eq_zero_iff A rr p hA hp).mpr h
      rw [h0, if_pos rfl, if_pos h]
      have e1 : M + A - 1 - (A - 1) = M := by omega
      have e2 : M + 1 + A - 1 - 0 = M + A := by omega
      rw [e1, e2, Nat.add_div_right M hA]
      omega
    · have h0 : distRR A rr p ≠ 0 := fun hh => h ((distRR_eq_zero_iff A rr p hA hp).mp hh)
      rw [if_neg h0, if_neg h]
      have e1 : M + A - 1 - (distRR A rr p - 1) = M + 1 + A - 1 - distRR A rr p := by omega
      rw [e1]
      omega

theorem cntRR_diff_le (A p1 p2 : Nat) (hA : 0 < A) (h1 : p1 < A) (h2 : p2 < A)
    (M rr : Nat) : cntRR A p1 rr M ≤ cntRR A p2 rr M + 1 := by
  rw [cntRR_closed A p1 hA h1 M rr, cntRR_closed A p2 hA h2 M rr]
  have hd1 := distRR_lt A rr p1 hA
  have hd2 := distRR_lt A rr p2 hA
  have hle : M + A - 1 - distRR A rr p1 ≤ (M + A - 1 - distRR A rr p2) + A := by omega
  calc (M + A - 1 - distRR A rr p1) / A
      ≤ ((M + A - 1 - distRR A rr p2) + A) / A := Nat.div_le_div_right hle
    _ = (M + A - 1 - distRR A rr p2) / A + 1 := Nat.add_div_right _ hA

theorem push_active (n : Node) (t : Task) : (n.push t).active = n.active := by
  unfold Node.push
  split <;> rfl

theorem push_queue_len_of_active (n : Node) (t : Task) (h : n.active = true) :
    (n.push t).queue.length = n.queue.length + 1 := by
  unfold Node.push
  rw [if_pos h]
  simp

theorem push_queue_of_active (n : Node) (t : Task) (h : n.active = true) :
    (n.push t).queue = n.queue ++ [t] := by
  unfold Node.push
  rw [if_pos h]

theorem getD_map_fst_of_lt :
    ∀ (l : List (Nat × Node)) (k : Nat) (d : Nat × Node) (d2 : Nat), k < l.length →
      (l.map Prod.fst).getD k d2 = (l.getD k d).1 := by
  intro l
  induction l with
  | nil => intro k d d2 h; simp at h
  | cons x xs ih =>
    intro k d d2 h
    cases k with
    | zero => rfl
    | succ k =>
      simp only [List.map_cons, List.getD_cons_succ]
      exact ih k d d2 (by simpa using h)

theorem activeIdx_mem (s : Scheduler) (j : Nat) (hj : j ∈ s.activeIdx) :
    j < s.nodes.length ∧ (s.nodes.getD j default).active = true := by
  obtain ⟨pr, hpr, rfl⟩ := List.mem_map.mp hj
  have h := activePairs_mem s pr hpr
  exact ⟨h.1, by rw [h.2.1]; exact h.2.2⟩

theorem activeIdx_pairwise (s : Scheduler) : s.activeIdx.Pairwise (· < ·) :=
  (activePairs_pairwise s).map Prod.fst (fun _ _ h => h)

theorem activeIdx_nodup (s : Scheduler) : s.activeIdx.Nodup :=
  (activeIdx_pairwise s).imp Nat.ne_of_lt

theorem nodup_getD_inj (l : List Nat) (hnd : l.Nodup) (a b d : Nat)
    (ha : a < l.length) (hb : b < l.length) (h : l.getD a d = l.getD b d) : a = b := by
  rw [List.getD_eq_getElem l d ha, List.getD_eq_getElem l d hb] at h
  exact (List.Nodup.getElem_inj_iff hnd).mp h

theorem enumFrom_filter_map_fst_congr :
    ∀ (ns ms : List Node) (k : Nat), ns.length = ms.length →
      (∀ i, i < ns.length → (ns.getD i default).active = (ms.getD i default).active) →
      ((enumFrom k ns).filter (fun q => q.2.active)).map Prod.fst =
        ((enumFrom k ms).filter (fun q => q.2.active)).map Prod.fst := by
  intro ns
  induction ns with
  | nil =>
    intro ms k hlen _
    cases ms with
    | nil => rfl
    | cons m ms => simp at hlen
  | cons n ns ih =>
    intro ms k hlen hact
    cases ms with
    | nil => simp at hlen
    | cons m ms =>
      have h0 : n.active = m.active := by
        have := hact 0 (by simp)
        simpa using this
      have htail : ∀ i, i < ns.length →
          (ns.getD i default).active = (ms.getD i default).active := by
        intro i hi
        have := hact (i + 1) (by simp; omega)
        simpa using this
      have hrec := ih ms (k + 1) (by simpa using hlen) htail
      by_cases hb : n.active = true
      · have hbm : m.active = true := by rw [← h0]; exact hb
        simp [enumFrom, List.filter_cons, hb, hbm, hrec]
      · have hbm : ¬(m.active = true) := by rw [← h0]; exact hb
        simp [enumFrom, List.filter_cons, hb, hbm, hrec]

theorem activeIdx_congr (s s2 : Scheduler) (hlen : s.nodes.length = s2.nodes.length)
    (hact : ∀ i, i < s.nodes.length →
      (s.nodes.getD i default).active = (s2.nodes.getD i default).active) :
    s.activeIdx = s2.activeIdx :=
  enumFrom_filter_map_fst_congr s.nodes s2.nodes 0 hlen hact

theorem dispatchTarget_rr (s : Scheduler) (rr : Nat)
    (hpol : s.policy = some "round_robin") (hne : s.activePairs ≠ []) :
    s.dispatchTarget rr =
      some (s.activeIdx.getD (rr % s.activeIdx.length) 0, rr + 1) := by
  obtain ⟨p0, ps0, hact⟩ : ∃ p0 ps0, s.activePairs = p0 :: ps0 := by
    cases hpp : s.activePairs with
    | nil => exact absurd hpp hne
    | cons a l => exact ⟨a, l, rfl⟩
  have hlen : s.activeIdx.length = (p0 :: ps0).length := by
    unfold Scheduler.activeIdx
    rw [hact]
    simp
  have hmodlt : rr % (p0 :: ps0).length < (p0 :: ps0).length :=
    Nat.mod_lt _ (by simp)
  have hgd : s.activeIdx.getD (rr % s.activeIdx.length) 0 =
      ((p0 :: ps0).getD (rr % (p0 :: ps0).length) p0).1 := by
    unfold Scheduler.activeIdx
    rw [hact, List.length_map]
    exact getD_map_fst_of_lt (p0 :: ps0) _ p0 0 hmodlt
  have hres : s.dispatchTarget rr =
      some (((p0 :: ps0).getD (rr % (p0 :: ps0).length) p0).1, rr + 1) := by
    simp [Scheduler.dispatchTarget, hact, hpol]
  rw [hres, hgd]

theorem assignMany_rr_qlen (ts : List Task) :
    ∀ (s : Scheduler) (rr : Nat), s.policy = some "round_robin" → s.activeIdx ≠ [] →
      ∀ p, p < s.activeIdx.length →
        ((s.assignMany rr ts).1.nodes.getD (s.activeIdx.getD p 0) default).queue.length =
          (s.nodes.getD (s.activeIdx.getD p 0) default).queue.length +
            cntRR s.activeIdx.length p rr ts.length := by
  induction ts with
  | nil =>
    intro s rr _ _ p _
    simp [Scheduler.assignMany, cntRR]
  | cons t ts ih =>
    intro s rr hpol hne p hp
    have hApos : 0 < s.activeIdx.length := List.length_pos.mpr hne
    have hne2 : s.activePairs ≠ [] := by
      intro hh
      apply hne
      unfold Scheduler.activeIdx
      rw [hh]
      rfl
    have hmod : rr % s.activeIdx.length < s.activeIdx.length := Nat.mod_lt _ hApos
    -- the chosen index for this dispatch
    have hchosen := dispatchTarget_rr s rr hpol hne2
    have hstep : s.assign_step rr t =
        ({ s with nodes := updateAt (s.activeIdx.getD (rr % s.activeIdx.length) 0) (fun n => n.push t) s.nodes }, rr + 1) := by
      unfold Scheduler.assign_step
      rw [hchosen]
    have hcmem : s.activeIdx.getD (rr % s.activeIdx.length) 0 ∈ s.activeIdx := by
      rw [List.getD_eq_getElem s.activeIdx 0 hmod]
      exact List.getElem_mem hmod
    have hc := activeIdx_mem s _ hcmem
    have hjmem : s.activeIdx.getD p 0 ∈ s.activeIdx := by
      rw [List.getD_eq_getElem s.activeIdx 0 hp]
      exact List.getElem_mem hp
    have hj := activeIdx_mem s _ hjmem
    -- the state after this dispatch
    set c := s.activeIdx.getD (rr % s.activeIdx.length) 0 with hcdef
    set j := s.activeIdx.getD p 0 with hjdef
    set s2 : Scheduler :=
      { s with nodes := updateAt c (fun n => n.push t) s.nodes } with hs2
    have hlen2 : s.nodes.length = s2.nodes.length := (updateAt_length _ _ _).symm
    have hact2 : ∀ i, i < s.nodes.length →
        (s.nodes.getD i default).active = (s2.nodes.getD i default).active := by
      intro i hi
      by_cases hic : i = c
      · subst hic
        rw [hs2]
        simp only []
        rw [updateAt_getD_same _ _ _ _ hc.1, push_active]
      · rw [hs2]
        simp only []
        rw [updateAt_getD_ne _ _ _ _ _ hic]
    have hAidx : s.activeIdx = s2.activeIdx := activeIdx_congr s s2 hlen2 hact2
    have hpol2 : s2.policy = some "round_robin" := hpol
    have hne2' : s2.activeIdx ≠ [] := by rw [← hAidx]; exact hne
    have hp2 : p < s2.activeIdx.length := by rw [← hAidx]; exact hp
    have hrec := ih s2 (rr + 1) hpol2 hne2' p hp2
    rw [← hAidx] at hrec
    -- unfold one step of assignMany
    have hunfold : s.assignMany rr (t :: ts) = s2.assignMany (rr + 1) ts := by
      simp only [Scheduler.assignMany, hstep]
    rw [hunfold, hrec]
    -- queue length of node j in s2
    have hq2 : (s2.nodes.getD j default).queue.length =
        (s.nodes.getD j default).queue.length + (if rr % s.activeIdx.length = p then 1 else 0) := by
      by_cases hcase : rr % s.activeIdx.length = p
      · have hcj : c = j := by rw [hcdef, hjdef, hcase]
        rw [if_pos hcase, hs2]
        simp only []
        rw [← hcj]
        rw [updateAt_getD_same _ _ _ _ hc.1]
        rw [push_queue_len_of_active _ _ hc.2]
      · have hcj : c ≠ j := by
          intro hh
          exact hcase (nodup_getD_inj s.activeIdx (activeIdx_nodup s) _ _ 0 hmod hp hh)
        rw [if_neg hcase, hs2]
        simp only []
        rw [updateAt_getD_ne _ _ _ _ _ (fun hh => hcj hh.symm)]
        omega
    rw [hq2]
    simp only [cntRR, List.length_cons]
    omega

/-- C6: under `round_robin` with a fixed non-empty active set (no
kill/revive, no policy change), dispatching `M` tasks places each onto
the active node at position `(rr + t) mod A` of the active list (`rr`
the persistent counter, `A` the active-set size): the node at active
position `p` receives exactly `cntRR A p rr M` tasks, and any two
per-node placement counts differ by at most 1. -/
theorem C6_round_robin_balance (s : Scheduler) (rr : Nat) (ts : List Task)
    (hpol : s.policy = some "round_robin") (hne : s.activeIdx ≠ [])
    (p1 p2 : Nat) (h1 : p1 < s.activeIdx.length) (h2 : p2 < s.activeIdx.length) :
    ((s.assignMany rr ts).1.nodes.getD (s.activeIdx.getD p1 0) default).queue.length =
      (s.nodes.getD (s.activeIdx.getD p1 0) default).queue.length +
        cntRR s.activeIdx.length p1 rr ts.length ∧
    ((s.assignMany rr ts).1.nodes.getD (s.activeIdx.getD p2 0) default).queue.length =
      (s.nodes.getD (s.activeIdx.getD p2 0) default).queue.length +
        cntRR s.activeIdx.length p2 rr ts.length ∧
    cntRR s.activeIdx.length p1 rr ts.length ≤
      cntRR s.activeIdx.length p2 rr ts.length + 1 := by
  have hApos : 0 < s.activeIdx.length := List.length_pos.mpr hne
  exact ⟨assignMany_rr_qlen ts s rr hpol hne p1 h1,
    assignMany_rr_qlen ts s rr hpol hne p2 h2,
    cntRR_diff_le _ p1 p2 hApos h1 h2 _ rr⟩

/-- C6 witness: three tasks through the fresh 2-node `round_robin`
scheduler: node 0 receives 2 tasks, node 1 receives 1, a difference
of 1. -/
theorem C6_witness :
    exSchedRR.policy = some "round_robin" ∧
    exSchedRR.activeIdx = [0, 1] ∧
    ((exSchedRR.assignMany 0 [Node.exTask 0, Node.exTask 1, Node.exTask 2]).1.nodes.getD
        0 default).queue.length = 2 ∧
    ((exSchedRR.assignMany 0 [Node.exTask 0, Node.exTask 1, Node.exTask 2]).1.nodes.getD
        1 default).queue.length = 1 := by
  have h := C6_round_robin_balance exSchedRR 0 [Node.exTask 0, Node.exTask 1, Node.exTask 2]
    rfl (by decide) 0 1 (by decide) (by decide)
  refine ⟨rfl, by decide, ?_, ?_⟩
  · have h1 := h.1
    rw [show exSchedRR.activeIdx.getD 0 0 = 0 from rfl] at h1
    rw [h1]
    decide
  · have h2 := h.2.1
    rw [show exSchedRR.activeIdx.getD 1 0 = 1 from rfl] at h2
    rw [h2]
    decide

theorem steal_tasks_active_eq (n : Node) (amount : Nat) (ha : n.active = true) :
    n.steal_tasks amount =
      ((n.queue.drop (n.queue.length - min amount (n.queue.length - 1))).reverse,
        { n with queue :=
            n.queue.take (n.queue.length - min amount (n.queue.length - 1)) }) := by
  have hk : min amount (n.queue.length - 1) ≤ n.queue.length := by omega
  have hloop := Node.stealLoop_spec (min amount (n.queue.length - 1)) n.queue hk
  simp [Node.steal_tasks, ha, hloop]

theorem distributeAux_length (idle : List (Nat × Node)) :
    ∀ (ts : List Task) (k : Nat) (ns : List Node),
      (distributeAux idle k ts ns).length = ns.length := by
  intro ts
  induction ts with
  | nil => intro k ns; rfl
  | cons t ts ih =>
    intro k ns
    simp only [distributeAux]
    rw [ih (k + 1), updateAt_length]

theorem distributeAux_getD_other (idle : List (Nat × Node)) (j : Nat)
    (hlenpos : 0 < idle.length)
    (hj : ∀ m2, m2 < idle.length → (idle.getD m2 (0, default)).1 ≠ j) :
    ∀ (ts : List Task) (k : Nat) (ns : List Node),
      (distributeAux idle k ts ns).getD j default = ns.getD j default := by
  intro ts
  induction ts with
  | nil => intro k ns; rfl
  | cons t ts ih =>
    intro k ns
    have hkm : k % idle.length < idle.length := Nat.mod_lt _ hlenpos
    simp only [distributeAux]
    rw [ih (k + 1)]
    exact updateAt_getD_ne _ _ _ _ _ (fun hh => hj _ hkm hh.symm)

theorem distributeAux_queue (idle : List (Nat × Node)) (m : Nat) (hm : m < idle.length)
    (hinj : ∀ m2, m2 < idle.length →
      (idle.getD m2 (0, default)).1 = (idle.getD m (0, default)).1 → m2 = m) :
    ∀ (ts : List Task) (k : Nat) (ns : List Node),
      (idle.getD m (0, default)).1 < ns.length →
      (ns.getD (idle.getD m (0, default)).1 default).active = true →
      ((distributeAux idle k ts ns).getD (idle.getD m (0, default)).1 default).queue =
        (ns.getD (idle.getD m (0, default)).1 default).queue ++
          receivedRR idle.length m k ts := by
  intro ts
  induction ts with
  | nil =>
    intro k ns _ _
    simp [distributeAux, receivedRR]
  | cons t ts ih =>
    intro k ns hlt hactive
    have hlenpos : 0 < idle.length := by omega
    have hkm : k % idle.length < idle.length := Nat.mod_lt _ hlenpos
    simp only [distributeAux]
    by_cases hcase : k % idle.length = m
    · have hij : (idle.getD (k % idle.length) (0, default)).1 =
          (idle.getD m (0, default)).1 := by rw [hcase]
      have h1 : (updateAt (idle.getD (k % idle.length) (0, default)).1
          (fun n => n.push t) ns).getD (idle.getD m (0, default)).1 default =
          (ns.getD (idle.getD m (0, default)).1 default).push t := by
        rw [hij]
        exact updateAt_getD_same _ _ _ _ hlt
      have hlen2 : (idle.getD m (0, default)).1 <
          (updateAt (idle.getD (k % idle.length) (0, default)).1
            (fun n => n.push t) ns).length := by
        rw [updateAt_length]
        exact hlt
      have hact2 : ((updateAt (idle.getD (k % idle.length) (0, default)).1
          (fun n => n.push t) ns).getD (idle.getD m (0, default)).1 default).active = true := by
        rw [h1, push_active]
        exact hactive
      rw [ih (k + 1) _ hlen2 hact2, h1, push_queue_of_active _ _ hactive]
      simp only [receivedRR, if_pos hcase]
      rw [List.append_assoc]
    · have hij : (idle.getD (k % idle.length) (0, default)).1 ≠
          (idle.getD m (0, default)).1 := by
        intro hh
        exact hcase (hinj _ hkm hh)
      have h1 : (updateAt (idle.getD (k % idle.length) (0, default)).1
          (fun n => n.push t) ns).getD (idle.getD m (0, default)).1 default =
          ns.getD (idle.getD m (0, default)).1 default :=
        updateAt_getD_ne _ _ _ _ _ (fun hh => hij hh.symm)
      have hlen2 : (idle.getD m (0, default)).1 <
          (updateAt (idle.getD (k % idle.length) (0, default)).1
            (fun n => n.push t) ns).length := by
        rw [updateAt_length]
        exact hlt
      rw [ih (k + 1) _ hlen2 (by rw [h1]; exact hactive), h1]
      simp only [receivedRR, if_neg hcase]
      rfl

theorem pairs_getD_fst_inj (l : List (Nat × Node))
    (hpw : l.Pairwise (fun a b => a.1 < b.1)) (m1 m2 : Nat)
    (h1 : m1 < l.length) (h2 : m2 < l.length)
    (he : (l.getD m1 (0, default)).1 = (l.getD m2 (0, default)).1) : m1 = m2 := by
  have hnd : (l.map Prod.fst).Nodup :=
    ((hpw.map Prod.fst (fun _ _ h => h)).imp Nat.ne_of_lt)
  have e1 := getD_map_fst_of_lt l m1 (0, default) 0 h1
  have e2 := getD_map_fst_of_lt l m2 (0, default) 0 h2
  refine nodup_getD_inj (l.map Prod.fst) hnd m1 m2 0 (by simpa using h1)
    (by simpa using h2) ?_
  rw [e1, e2, he]

theorem work_stealing_step_eq (s : Scheduler) (p : Nat × Node) (ps : List (Nat × Node))
    (hpol : s.policy = some "work_stealing") (hact : s.activePairs = p :: ps) :
    s.work_stealing_step =
      if ((p :: ps).filter (fun q => q.2.queue_len == 0)) ≠ [] ∧
          1 < (pyMaxBy (fun q => q.2.queue_len) p ps).2.queue_len then
        if ((pyMaxBy (fun q => q.2.queue_len) p ps).2.steal_tasks
            (max 1 ((pyMaxBy (fun q => q.2.queue_len) p ps).2.queue_len / 4))).1 ≠ [] then
          { s with
            nodes := distributeAux ((p :: ps).filter (fun q => q.2.queue_len == 0)) 0
              ((pyMaxBy (fun q => q.2.queue_len) p ps).2.steal_tasks
                (max 1 ((pyMaxBy (fun q => q.2.queue_len) p ps).2.queue_len / 4))).1
              (updateAt (pyMaxBy (fun q => q.2.queue_len) p ps).1
                (fun _ => ((pyMaxBy (fun q => q.2.queue_len) p ps).2.steal_tasks
                  (max 1 ((pyMaxBy (fun q => q.2.queue_len) p ps).2.queue_len / 4))).2)
                s.nodes),
            migrations := s.migrations +
              ((pyMaxBy (fun q => q.2.queue_len) p ps).2.steal_tasks
                (max 1 ((pyMaxBy (fun q => q.2.queue_len) p ps).2.queue_len / 4))).1.length }
        else s
      else s := by
  unfold Scheduler.work_stealing_step
  rw [if_neg (by rw [hpol]; simp), hact]

/-- C4: a work-stealing iteration is the identity unless the policy is
`work_stealing`, and also when no active node is idle or the busiest
active node holds at most one task.  Under the guard — some active node
with an empty queue, and the (first-maximum) busiest active node `B`
with `L = B.queue_len() > 1` — it steals
`k' = min(max(1, L // 4), L - 1) ≥ 1` tasks from the back of `B`, deals
task `i` of the stolen list to idle node `i mod |I|`, leaves every other
node untouched, and increments the migration counter by exactly `k'`,
the number of tasks actually moved. -/
theorem C4_work_stealing_spec (s : Scheduler) (p : Nat × Node) (ps : List (Nat × Node)) :
    (s.policy ≠ some "work_stealing" → s.work_stealing_step = s) ∧
    (s.activePairs = [] → s.work_stealing_step = s) ∧
    (s.policy = some "work_stealing" → s.activePairs = p :: ps →
      (((p :: ps).filter (fun q => q.2.queue_len == 0) = [] ∨
          (pyMaxBy (fun q => q.2.queue_len) p ps).2.queue_len ≤ 1) →
        s.work_stealing_step = s) ∧
      ((p :: ps).filter (fun q => q.2.queue_len == 0) ≠ [] →
        1 < (pyMaxBy (fun q => q.2.queue_len) p ps).2.queue_len →
        (∀ q ∈ p :: ps,
          q.2.queue_len ≤ (pyMaxBy (fun q => q.2.queue_len) p ps).2.queue_len) ∧
        1 ≤ min (max 1 ((pyMaxBy (fun q => q.2.queue_len) p ps).2.queue_len / 4))
          ((pyMaxBy (fun q => q.2.queue_len) p ps).2.queue_len - 1) ∧
        ((pyMaxBy (fun q => q.2.queue_len) p ps).2.steal_tasks
            (max 1 ((pyMaxBy (fun q => q.2.queue_len) p ps).2.queue_len / 4))).1.length =
          min (max 1 ((pyMaxBy (fun q => q.2.queue_len) p ps).2.queue_len / 4))
            ((pyMaxBy (fun q => q.2.queue_len) p ps).2.queue_len - 1) ∧
        s.work_stealing_step.migrations = s.migrations +
          min (max 1 ((pyMaxBy (fun q => q.2.queue_len) p ps).2.queue_len / 4))
            ((pyMaxBy (fun q => q.2.queue_len) p ps).2.queue_len - 1) ∧
        s.work_stealing_step.nodes.length = s.nodes.length ∧
        (s.work_stealing_step.nodes.getD (pyMaxBy (fun q => q.2.queue_len) p ps).1
            default).queue =
          (pyMaxBy (fun q => q.2.queue_len) p ps).2.queue.take
            ((pyMaxBy (fun q => q.2.queue_len) p ps).2.queue_len -
              min (max 1 ((pyMaxBy (fun q => q.2.queue_len) p ps).2.queue_len / 4))
                ((pyMaxBy (fun q => q.2.queue_len) p ps).2.queue_len - 1)) ∧
        (∀ m, m < ((p :: ps).filter (fun q => q.2.queue_len == 0)).length →
          (s.work_stealing_step.nodes.getD
              (((p :: ps).filter (fun q => q.2.queue_len == 0)).getD m (0, default)).1
              default).queue =
            receivedRR ((p :: ps).filter (fun q => q.2.queue_len == 0)).length m 0
              ((pyMaxBy (fun q => q.2.queue_len) p ps).2.steal_tasks
                (max 1 ((pyMaxBy (fun q => q.2.queue_len) p ps).2.queue_len / 4))).1) ∧
        (∀ j, j < s.nodes.length → j ≠ (pyMaxBy (fun q => q.2.queue_len) p ps).1 →
          (∀ m, m < ((p :: ps).filter (fun q => q.2.queue_len == 0)).length →
            j ≠ (((p :: ps).filter (fun q => q.2.queue_len == 0)).getD m (0, default)).1) →
          s.work_stealing_step.nodes.getD j default = s.nodes.getD j default) ∧
        s.work_stealing_step.policy = s.policy ∧
        s.work_stealing_step.task_queue = s.task_queue ∧
        s.work_stealing_step.latencies = s.latencies)) := by
  refine ⟨?_, ?_, ?_⟩
  · intro h
    simp [Scheduler.work_stealing_step, h]
  · intro hact
    unfold Scheduler.work_stealing_step
    split
    · rfl
    · rw [hact]
  · intro hpol hact
    have hsteq := work_stealing_step_eq s p ps hpol hact
    constructor
    · intro hor
      rw [hsteq, if_neg]
      rcases hor with h | h
      · intro hh
        exact hh.1 h
      · intro hh
        omega
    · intro hidle hL
      -- the busiest node is a member of the active pairs
      have hbmem : pyMaxBy (fun q => q.2.queue_len) p ps ∈ s.activePairs := by
        rw [hact]
        rcases pyMaxBy_mem (fun q => q.2.queue_len) ps p with h | h
        · rw [h]; exact List.mem_cons_self _ _
        · exact List.mem_cons_of_mem _ h
      have hbst := activePairs_mem s _ hbmem
      set B := pyMaxBy (fun q => q.2.queue_len) p ps with hB
      set L := B.2.queue_len with hLdef
      set amount := max 1 (L / 4) with hamount
      set k := min amount (L - 1) with hk
      have hk1 : 1 ≤ k := by
        rw [hk, hamount]
        omega
      have hkL : k ≤ L := by
        rw [hk]
        omega
      have hsteal := steal_tasks_active_eq B.2 amount hbst.2.2
      have hstolen_len : (B.2.steal_tasks amount).1.length = k := by
        rw [hsteal]
        simp only [List.length_reverse, List.length_drop]
        have hql : L = B.2.queue.length := hLdef
        omega
      have hstolen_ne : (B.2.steal_tasks amount).1 ≠ [] := by
        intro hh
        rw [hh] at hstolen_len
        simp at hstolen_len
        omega
      set idle := (p :: ps).filter (fun q => q.2.queue_len == 0) with hidledef
      have hidle_len : 0 < idle.length := List.length_pos.mpr hidle
      -- the step in closed form
      have hstep : s.work_stealing_step =
          { s with
            nodes := distributeAux idle 0 (B.2.steal_tasks amount).1
              (updateAt B.1 (fun _ => (B.2.steal_tasks amount).2) s.nodes),
            migrations := s.migrations + (B.2.steal_tasks amount).1.length } := by
        rw [hsteq, if_pos ⟨hidle, hL⟩, if_pos hstolen_ne]
      -- idle nodes are active pairs with empty queues, none of them is B
      have hidle_mem : ∀ m, m < idle.length →
          (idle.getD m (0, default)) ∈ s.activePairs ∧
          (idle.getD m (0, default)).2.queue_len = 0 := by
        intro m hm
        have hmem : idle.getD m (0, default) ∈ idle := by
          rw [List.getD_eq_getElem idle (0, default) hm]
          exact List.getElem_mem hm
        rw [hidledef] at hmem
        have := List.mem_filter.mp hmem
        refine ⟨by rw [hact]; exact this.1, by simpa using this.2⟩
      have hbno : ∀ m, m < idle.length → (idle.getD m (0, default)).1 ≠ B.1 := by
        intro m hm hh
        have h1 := hidle_mem m hm
        have h2 := activePairs_mem s _ h1.1
        have h3 : (idle.getD m (0, default)).2 = B.2 := by
          rw [← h2.2.1, hh, hbst.2.1]
        rw [h3] at h1
        omega
      have hidle_pw : idle.Pairwise (fun a b => a.1 < b.1) := by
        rw [hidledef]
        refine List.Pairwise.filter _ ?_
        rw [← hact]
        exact activePairs_pairwise s
      refine ⟨?_, hk1, hstolen_len, ?_, ?_, ?_, ?_, ?_, ?_, ?_, ?_⟩
      · intro q hq
        exact pyMaxBy_ge (fun q => q.2.queue_len) ps p q hq
      · rw [hstep]
        simp only []
        rw [hstolen_len]
      · rw [hstep]
        simp only []
        rw [distributeAux_length, updateAt_length]
      · -- the busiest node's remaining queue
        rw [hstep]
        simp only []
        rw [distributeAux_getD_other idle B.1 hidle_len hbno]
        rw [updateAt_getD_same _ _ _ _ hbst.1, hsteal]
        have hql : L = B.2.queue.length := hLdef
        have harith : B.2.queue.length - amount ⊓ (B.2.queue.length - 1) = L - k := by
          omega
        show List.take (B.2.queue.length - amount ⊓ (B.2.queue.length - 1)) B.2.queue =
          List.take (L - k) B.2.queue
        rw [harith]
      · -- each idle node's queue after the deal
        intro m hm
        have h1 := hidle_mem m hm
        have h2 := activePairs_mem s _ h1.1
        have hinj : ∀ m2, m2 < idle.length →
            (idle.getD m2 (0, default)).1 = (idle.getD m (0, default)).1 → m2 = m := by
          intro m2 hm2 he
          exact pairs_getD_fst_inj idle hidle_pw m2 m hm2 hm he
        have hlt1 : (idle.getD m (0, default)).1 <
            (updateAt B.1 (fun _ => (B.2.steal_tasks amount).2) s.nodes).length := by
          rw [updateAt_length]
          exact h2.1
        have hother : (updateAt B.1 (fun _ => (B.2.steal_tasks amount).2) s.nodes).getD
            (idle.getD m (0, default)).1 default =
            s.nodes.getD (idle.getD m (0, default)).1 default :=
          updateAt_getD_ne _ _ _ _ _ (hbno m hm)
        have hact1 : ((updateAt B.1 (fun _ => (B.2.steal_tasks amount).2) s.nodes).getD
            (idle.getD m (0, default)).1 default).active = true := by
          rw [hother, h2.2.1]
          exact h2.2.2
        rw [hstep]
        simp only []
        rw [distributeAux_queue idle m hm hinj _ 0 _ hlt1 hact1, hother, h2.2.1]
        have hq0 : (idle.getD m (0, default)).2.queue = [] := by
          have := h1.2
          unfold Node.queue_len at this
          exact List.length_eq_zero.mp this
        rw [hq0]
        rfl
      · -- untouched nodes
        intro j hj hjB hjidle
        rw [hstep]
        simp only []
        rw [distributeAux_getD_other idle j hidle_len
          (fun m2 hm2 hh => hjidle m2 hm2 hh.symm)]
        exact updateAt_getD_ne _ _ _ _ _ hjB
      · rw [hstep]
      · rw [hstep]
      · rw [hstep]

/-- C4 witness: the concrete 3-node `work_stealing` scheduler (node 0
holds 5 tasks, nodes 1 and 2 idle): one task is stolen
(`max(1, 5 // 4) = 1`, capped at `L - 1 = 4`), node 0 keeps its first
four tasks, idle node 1 receives the stolen (youngest) task, idle node 2
receives nothing, and exactly one migration is counted. -/
theorem C4_witness :
    exSchedWS.policy = some "work_stealing" ∧
    exSchedWS.work_stealing_step.migrations = 1 ∧
    (exSchedWS.work_stealing_step.nodes.getD 0 default).queue =
      [Node.exTask 0, Node.exTask 1, Node.exTask 2, Node.exTask 3] ∧
    (exSchedWS.work_stealing_step.nodes.getD 1 default).queue = [Node.exTask 4] ∧
    (exSchedWS.work_stealing_step.nodes.getD 2 default).queue = [] := by
  have hact : exSchedWS.activePairs =
      (0, exSchedWS.nodes.getD 0 default) ::
        [(1, exSchedWS.nodes.getD 1 default), (2, exSchedWS.nodes.getD 2 default)] := rfl
  have h := (C4_work_stealing_spec exSchedWS _ _).2.2 rfl hact
  have hidle : ((0, exSchedWS.nodes.getD 0 default) ::
      [(1, exSchedWS.nodes.getD 1 default), (2, exSchedWS.nodes.getD 2 default)]).filter
      (fun q => q.2.queue_len == 0) ≠ [] := by decide
  have hL : 1 < (pyMaxBy (fun q => q.2.queue_len) (0, exSchedWS.nodes.getD 0 default)
      [(1, exSchedWS.nodes.getD 1 default), (2, exSchedWS.nodes.getD 2 default)]).2.queue_len := by
    decide
  obtain ⟨-, -, -, hmig, -, hbq, hrecv, -, -, -, -⟩ := h.2 hidle hL
  refine ⟨rfl, ?_, ?_, ?_, ?_⟩
  · exact hmig.trans rfl
  · exact hbq.trans rfl
  · exact (hrecv 0 (by decide)).trans rfl
  · exact (hrecv 1 (by decide)).trans rfl

/-- C10: `snapshot()` is read-only — the scheduler state after the call
is exactly the state before it (the method body only reads fields and
builds fresh lists). -/
theorem C10_snapshot_readonly (s : Scheduler) (sim : SimState) (now : ℚ) :
    (s.snapshotM sim now).2 = s :=
  rfl

end Sim
